import Mathlib

/-!
Verification of the DarkPulse-Collector crawl orchestration engine.

The definitions below are shallow embeddings of the Python source:
* `sha1` embeds `hashlib.sha1(text.encode("utf-8")).hexdigest()` (32-bit
  words are `Nat` values reduced mod 2^32; bitwise operations are defined
  by binary recursion so everything evaluates in the kernel).
* the store/crawl/cache models follow
  `news_collector/scripts/_crawler_base.py`,
  `news_collector/scripts/_thehackernews.py`,
  `news_collector/scripts/_hackread.py`,
  `crawler/.../redis_manager/redis_controller.py` and
  `crawler/.../shared/helper_method.py`.
-/

namespace DarkPulse


/-! ### 32-bit word arithmetic (model of Python ints restricted to SHA-1 words) -/

/-- Combine two naturals bit by bit (`fuel` bits) with a bit-level function. -/
def bitZip (f : Nat → Nat → Nat) : Nat → Nat → Nat → Nat
  | 0, _, _ => 0
  | n + 1, a, b => f (a % 2) (b % 2) + 2 * bitZip f n (a / 2) (b / 2)

/-- Bitwise 32-bit exclusive or. -/
def xor32 (a b : Nat) : Nat := bitZip (fun x y => (x + y) % 2) 32 a b

/-- Bitwise 32-bit and. -/
def and32 (a b : Nat) : Nat := bitZip (fun x y => x * y) 32 a b

/-- Bitwise 32-bit or. -/
def or32 (a b : Nat) : Nat := bitZip (fun x y => x + y - x * y) 32 a b

/-- Bitwise 32-bit complement. -/
def not32 (a : Nat) : Nat := 4294967295 - a % 4294967296

/-- Modular 32-bit addition. -/
def add32 (a b : Nat) : Nat := (a + b) % 4294967296

/-- Rotate a 32-bit word left by `s` bits. -/
def rotl32 (s a : Nat) : Nat := (a * 2 ^ s + a / 2 ^ (32 - s)) % 4294967296

/-! ### SHA-1 (model of `hashlib.sha1(... .encode("utf-8")).hexdigest()`) -/

/-- UTF-8 encoding of one character, as byte values. -/
def utf8Bytes (c : Char) : List Nat :=
  let n := c.toNat
  if n < 128 then [n]
  else if n < 2048 then [192 + n / 64, 128 + n % 64]
  else if n < 65536 then [224 + n / 4096, 128 + n / 64 % 64, 128 + n % 64]
  else [240 + n / 262144, 128 + n / 4096 % 64, 128 + n / 64 % 64, 128 + n % 64]

/-- UTF-8 bytes of a string (model of `str.encode("utf-8")`). -/
def strBytes (s : String) : List Nat := (s.data.map utf8Bytes).flatten

/-- Big-endian 8-byte rendering of a natural number. -/
def be64 (n : Nat) : List Nat :=
  [n / 72057594037927936 % 256, n / 281474976710656 % 256,
   n / 1099511627776 % 256, n / 4294967296 % 256,
   n / 16777216 % 256, n / 65536 % 256, n / 256 % 256, n % 256]

/-- SHA-1 message padding: append `0x80`, zero bytes to 56 mod 64, then the
bit length as a big-endian 64-bit number. -/
def padMsg (m : List Nat) : List Nat :=
  m ++ [128] ++ List.replicate ((119 - m.length % 64) % 64) 0 ++ be64 (m.length * 8)

/-- Group bytes into big-endian 32-bit words. -/
def toWords : List Nat → List Nat
  | a :: b :: c :: d :: rest => (((a * 256 + b) * 256 + c) * 256 + d) :: toWords rest
  | _ => []

/-- Split a word list into 16-word blocks (the padded message is always a
multiple of 16 words). -/
def toBlocks : List Nat → List (List Nat)
  | w0 :: w1 :: w2 :: w3 :: w4 :: w5 :: w6 :: w7 ::
    w8 :: w9 :: w10 :: w11 :: w12 :: w13 :: w14 :: w15 :: rest =>
    [w0, w1, w2, w3, w4, w5, w6, w7, w8, w9, w10, w11, w12, w13, w14, w15] ::
      toBlocks rest
  | _ => []

/-- Extend a 16-word block to the 80-word SHA-1 message schedule. -/
def schedW : Nat → List Nat → List Nat
  | 0, acc => acc
  | n + 1, acc =>
    schedW n (acc ++ [rotl32 1 (xor32 (xor32 (acc.getD (acc.length - 3) 0)
      (acc.getD (acc.length - 8) 0)) (xor32 (acc.getD (acc.length - 14) 0)
      (acc.getD (acc.length - 16) 0)))])

/-- SHA-1 round constant. -/
def sha1K (i : Nat) : Nat :=
  if i < 20 then 1518500249 else if i < 40 then 1859775393
  else if i < 60 then 2400959708 else 3395469782

/-- SHA-1 round function. -/
def sha1F (i b c d : Nat) : Nat :=
  if i < 20 then or32 (and32 b c) (and32 (not32 b) d)
  else if i < 40 then xor32 (xor32 b c) d
  else if i < 60 then or32 (or32 (and32 b c) (and32 b d)) (and32 c d)
  else xor32 (xor32 b c) d

/-- Run the 80 SHA-1 rounds over a message schedule. -/
def sha1Rounds : Nat → List Nat → Nat × Nat × Nat × Nat × Nat → Nat × Nat × Nat × Nat × Nat
  | _, [], st => st
  | i, w :: ws, (a, b, c, d, e) =>
    sha1Rounds (i + 1) ws
      (add32 (add32 (add32 (add32 (rotl32 5 a) (sha1F i b c d)) e) (sha1K i)) w,
       a, rotl32 30 b, c, d)

/-- Compress one 16-word block into the running state. -/
def sha1Block (st : Nat × Nat × Nat × Nat × Nat) (block : List Nat) :
    Nat × Nat × Nat × Nat × Nat :=
  match st, sha1Rounds 0 (schedW 64 block) st with
  | (h0, h1, h2, h3, h4), (a, b, c, d, e) =>
    (add32 h0 a, add32 h1 b, add32 h2 c, add32 h3 d, add32 h4 e)

/-- Hex digit characters. -/
def hexDigit (n : Nat) : Char :=
  (("0123456789abcdef".data).getD n '0')

/-- Render one 32-bit word as 8 lowercase hex digits. -/
def hex8 (w : Nat) : String :=
  ⟨[hexDigit (w / 268435456 % 16), hexDigit (w / 16777216 % 16),
    hexDigit (w / 1048576 % 16), hexDigit (w / 65536 % 16),
    hexDigit (w / 4096 % 16), hexDigit (w / 256 % 16),
    hexDigit (w / 16 % 16), hexDigit (w % 16)]⟩

/-- SHA-1 hex digest of a string; embeds `_sha1` from `_crawler_base.py`
(`hashlib.sha1(text.encode("utf-8")).hexdigest()`). -/
def sha1 (text : String) : String :=
  match (toBlocks (toWords (padMsg (strBytes text)))).foldl sha1Block
      (1732584193, 4023233417, 2562383102, 271733878, 3285377520) with
  | (h0, h1, h2, h3, h4) => hex8 h0 ++ hex8 h1 ++ hex8 h2 ++ hex8 h3 ++ hex8 h4

/-! ### Card data model (`news_model` from `data_model/news_model.py`)

Scalar fields are strings; `m_leak_date` stands for the optional parsed date
(`_date_to_string` renders `None` as `""` and anything else via `str`, which
we model as carrying the rendered string); `m_extra` is the open extra bag. -/

structure Card where
  m_url : String
  m_title : String
  m_author : String
  m_leak_date : Option String
  m_description : String
  m_location : String
  m_content : String
  m_network : String
  m_base_url : String
  m_links : List String
  m_weblink : List String
  m_dumplink : List String
  m_extra : List (String × String)
deriving DecidableEq, Repr

/-- Python `a or b` on strings: the empty string is falsy. -/
def pyOr (a b : String) : String := if a = "" then b else a

/-- Model of `_date_to_string`: `None` becomes `""`, otherwise the rendered date. -/
def dateToString : Option String → String
  | none => ""
  | some s => s

/-- Python `(card.m_extra or {}).get(k, "")`. -/
def extraGet (card : Card) (k : String) : String :=
  match card.m_extra.find? (fun e => e.1 = k) with
  | some e => e.2
  | none => ""

/-- The stable identifier computed by `_store_raw_card` /
`store_raw_card_generic`:
`sha1(card.m_url or (card.m_title or "") + str(datetime.now(...).timestamp()))`.
`now` is the rendered timestamp string. -/
def storeRawAid (card : Card) (now : String) : String :=
  sha1 (pyOr card.m_url (pyOr card.m_title "" ++ now))

/-! ### Flat key-value writes (`_redis_set` effects on the backend) -/

/-- One backend write performed by `_redis_set`: key and stringified value. -/
abbrev Write := String × String

/-- The value a sequence of writes leaves under `key`: later writes overwrite
earlier ones (Python dict assignment in `redis_controller`). -/
def storeGet : List Write → String → Option String
  | [], _ => none
  | e :: rest, k =>
    match storeGet rest k with
    | some v => some v
    | none => if e.1 = k then some e.2 else none

/-- Indexed element writes of a list field:
`self._redis_set(f"{base}:{name}:{i}", link)` for each element. -/
def idxWrites (b name : String) : Nat → List String → List Write
  | _, [] => []
  | i, l :: rest =>
    (b ++ (":" ++ name ++ ":" ++ toString i), l) :: idxWrites b name (i + 1) rest

/-- A list field section: `{base}:{name}_count` then the indexed elements. -/
def listSection (b name : String) (lst : List String) : List Write :=
  (b ++ (":" ++ name ++ "_count"), toString lst.length) :: idxWrites b name 0 lst

/-- Scalar-field writes shared by `store_raw_card_generic`
(`_crawler_base.py`, lines 66-79). -/
def scalarWrites (b : String) (card : Card) (seed : String) (sAt : Nat) : List Write :=
  [(b ++ ":url", card.m_url), (b ++ ":title", card.m_title),
   (b ++ ":author", card.m_author), (b ++ ":date", dateToString card.m_leak_date),
   (b ++ ":description", card.m_description), (b ++ ":location", pyOr card.m_location ""),
   (b ++ ":content", pyOr card.m_content ""), (b ++ ":network:type", card.m_network),
   (b ++ ":seed_url", pyOr card.m_base_url seed), (b ++ ":rendered", "1"),
   (b ++ ":scraped_at", toString sAt)]

/-- Writer `store_raw_card_generic` from `_crawler_base.py`: scalar fields, then the
unconditional optional extras `date_raw` and `content_html`, then the three
list sections.  `now` is the timestamp string used in the identity fallback,
`sAt` the epoch-seconds `scraped_at` value, `seed` the subclass seed URL. -/
def store_raw_card_generic (pre : String) (card : Card) (now seed : String)
    (sAt : Nat) : List Write :=
  let b := pre ++ ":" ++ storeRawAid card now
  scalarWrites b card seed sAt ++
  [(b ++ ":date_raw", extraGet card "date_raw"),
   (b ++ ":content_html", extraGet card "content_html")] ++
  listSection b "links" card.m_links ++
  listSection b "weblink" card.m_weblink ++
  listSection b "dumplink" card.m_dumplink

/-- Writer `_thehackernews._store_raw_card`: writes `date_raw` after `date` but has
no `content_html` write at all; the trailing `_append_index` call touches the
separate index key and is modelled by `append_index` below. -/
def thn_store_raw_card (card : Card) (now : String) (sAt : Nat) : List Write :=
  let b := "THN:raw:" ++ storeRawAid card now
  [(b ++ ":url", card.m_url), (b ++ ":title", card.m_title),
   (b ++ ":author", card.m_author), (b ++ ":date", dateToString card.m_leak_date)] ++
  [(b ++ ":date_raw", extraGet card "date_raw")] ++
  [(b ++ ":description", card.m_description), (b ++ ":location", pyOr card.m_location ""),
   (b ++ ":content", pyOr card.m_content ""), (b ++ ":network:type", card.m_network),
   (b ++ ":seed_url", "https://thehackernews.com/"), (b ++ ":rendered", "1"),
   (b ++ ":scraped_at", toString sAt)] ++
  listSection b "links" card.m_links ++
  listSection b "weblink" card.m_weblink ++
  listSection b "dumplink" card.m_dumplink

/-- Writer `_hackread._store_raw_card`: writes both `date_raw` and `content_html`
right after `date`. -/
def hackread_store_raw_card (card : Card) (now : String) (sAt : Nat) : List Write :=
  let b := "HACKREAD:raw:" ++ storeRawAid card now
  [(b ++ ":url", card.m_url), (b ++ ":title", card.m_title),
   (b ++ ":author", card.m_author), (b ++ ":date", dateToString card.m_leak_date)] ++
  [(b ++ ":date_raw", extraGet card "date_raw"),
   (b ++ ":content_html", extraGet card "content_html")] ++
  [(b ++ ":description", card.m_description), (b ++ ":location", pyOr card.m_location ""),
   (b ++ ":content", pyOr card.m_content ""), (b ++ ":network:type", card.m_network),
   (b ++ ":seed_url", "https://hackread.com/category/hacking-news/leaks-affairs/"),
   (b ++ ":rendered", "1"), (b ++ ":scraped_at", toString sAt)] ++
  listSection b "links" card.m_links ++
  listSection b "weblink" card.m_weblink ++
  listSection b "dumplink" card.m_dumplink

/-! ### `_append_index` (pipe-delimited membership string) -/

/-- Model of Python `str.split("|")` on the character list. -/
def splitPipe : List Char → List (List Char)
  | [] => [[]]
  | c :: rest =>
    if c = '|' then [] :: splitPipe rest
    else
      match splitPipe rest with
      | [] => [[c]]
      | p :: ps => (c :: p) :: ps

/-- Model of Python `"|".join(...)` on character lists. -/
def joinPipe : List (List Char) → List Char
  | [] => []
  | [x] => x
  | x :: rest => x ++ '|' :: joinPipe rest

/-- Model of `cur.split("|")` as strings. -/
def split_pipe (s : String) : List String := (splitPipe s.data).map (fun l => ⟨l⟩)

/-- The member sequence of an index string:
`[p for p in cur.split("|") if p]`. -/
def members (s : String) : List String := (split_pipe s).filter (fun p => p ≠ "")

/-- Model of `"|".join(parts)`. -/
def joinPipeS (parts : List String) : String := ⟨joinPipe (parts.map String.data)⟩

/-- Model of `_append_index` as a transformation of the stored index string: when the
id is already a member nothing is written (the string is unchanged),
otherwise the filtered member list plus the id is re-joined and written. -/
def append_index (cur item_id : String) : String :=
  let parts := if cur = "" then [] else members cur
  if item_id ∈ parts then cur
  else joinPipeS (parts ++ [item_id])

/-! ### `redis_controller` (in-memory store with lazy expiry) -/

/-- One stored entry: value and optional absolute expiry timestamp, exactly
the `(value, exp_at)` tuple kept by `redis_controller`. -/
abbrev REntry := String × Option Nat

/-- The backing dict `self._store`, one entry per key. -/
abbrev RStore := List (String × REntry)

/-- Dict lookup. -/
def rlookup (st : RStore) (key : String) : Option REntry :=
  match st.find? (fun e => e.1 = key) with
  | some e => some e.2
  | none => none

/-- Dict deletion (`del self._store[key]`). -/
def rerase (st : RStore) (key : String) : RStore :=
  st.filter (fun e => e.1 ≠ key)

/-- Dict assignment (`self._store[key] = (value, exp_at)`). -/
def rassign (st : RStore) (key : String) (entry : REntry) : RStore :=
  (key, entry) :: rerase st key

/-- Model of `invoke_trigger(1, [key, default, _])` at time `now`: lazy expiry — an
entry whose (truthy) expiry timestamp is strictly in the past is deleted and
the default returned; returns the value and the possibly-updated store. -/
def rget (st : RStore) (now : Nat) (key default : String) : String × RStore :=
  match rlookup st key with
  | none => (default, st)
  | some (v, none) => (v, st)
  | some (v, some expAt) =>
    if expAt ≠ 0 ∧ now > expAt then (default, rerase st key) else (v, st)

/-- Model of `invoke_trigger(2, [key, value, expiry])` at time `now`: a truthy expiry
stores `now + expiry`, otherwise no expiry (`exp_at = None`). -/
def rset (st : RStore) (now : Nat) (key value : String) (expiry : Option Nat) :
    RStore :=
  let expAt : Option Nat :=
    match expiry with
    | some e => if e ≠ 0 then some (now + e) else none
    | none => none
  rassign st key (value, expAt)

/-! ### Cache wrappers (`_redis_get` / `_redis_set`)

A backend call either returns normally or raises; we model it as an
`Except` value handed to the wrapper. -/

/-- Wrapper `CrawlerBase._redis_get`: exceptions yield the default; a `None` return
yields `""` (note: not the default); otherwise the stringified value. -/
def redis_get_base (backend : Except String (Option String)) (default : String) :
    String :=
  match backend with
  | .error _ => default
  | .ok none => ""
  | .ok (some v) => v

/-- Wrapper `_thehackernews._redis_get` / `_hackread._redis_get`: exceptions and
`None` both yield the default. -/
def redis_get_thn (backend : Except String (Option String)) (default : String) :
    String :=
  match backend with
  | .error _ => default
  | .ok none => default
  | .ok (some v) => v

/-- Wrapper `CrawlerBase._redis_set`: the backend call is wrapped in
`try ... except Exception: pass`, so errors never surface. -/
def redis_set_base (backend : Except String Unit) : Except String Unit :=
  match backend with
  | .error _ => .ok ()
  | .ok u => .ok u

/-- Wrapper `_thehackernews._redis_set` (and `_hackread._redis_set`): the backend
call is NOT wrapped — whatever it does is what the caller sees. -/
def redis_set_thn (backend : Except String Unit) : Except String Unit :=
  backend

/-! ### `helper_method.get_network_type`

`urllib.parse.urlparse` is external library code; the scheme/netloc
extraction it performs is embedded here for URLs without the exotic
IPv6-bracket corner (on which `urlparse` raises and the `except` in
`get_network_type` returns "unknown"). -/

/-- Characters allowed in a URL scheme after the first letter. -/
def schemeChars (c : Char) : Bool := c.isAlphanum || c = '+' || c = '-' || c = '.'

/-- Split a character list at the first colon, if any. -/
def splitAtColon : List Char → Option (List Char × List Char)
  | [] => none
  | c :: r =>
    if c = ':' then some ([], r)
    else
      match splitAtColon r with
      | none => none
      | some (pre, post) => some (c :: pre, post)

/-- Scheme extraction of `urlparse`: a nonempty all-scheme-chars prefix starting
with a letter, before the first colon, is the (lowercased) scheme; otherwise
there is no scheme and the whole input remains. -/
def parseScheme (l : List Char) : List Char × List Char :=
  match splitAtColon l with
  | some (pre, post) =>
    match pre with
    | [] => ([], l)
    | c :: rest =>
      if c.isAlpha && (c :: rest).all schemeChars then
        ((c :: rest).map Char.toLower, post)
      else ([], l)
  | none => ([], l)

/-- Netloc extraction of `urlparse`: present only after `//`, up to the next `/`, `?`
or `#`. -/
def parseNetloc : List Char → List Char
  | '/' :: '/' :: r => r.takeWhile (fun c => !(c = '/' || c = '?' || c = '#'))
  | _ => []

/-- `helper_method.get_network_type`: lowercased netloc ending in `.onion`
is "tor" (checked first), otherwise an http/https scheme is "clearnet",
otherwise "unknown". -/
def get_network_type (base_url : String) : String :=
  let sr := parseScheme base_url.data
  let netloc := (parseNetloc sr.2).map Char.toLower
  if (".onion".data).isSuffixOf netloc then "tor"
  else if sr.1 = "http".data ∨ sr.1 = "https".data then "clearnet"
  else "unknown"

/-- The characters of a netloc after the last `@` (the userinfo split used
by `urlparse(...).hostname`). -/
def afterLastAt (l : List Char) : List Char :=
  l.foldl (fun acc c => if c = '@' then [] else acc ++ [c]) []

/-- The URL's host as `urlparse(...).hostname` reports it for bracket-free
netlocs: userinfo dropped, port stripped, lowercased. -/
def urlHostname (url : String) : List Char :=
  ((afterLastAt (parseNetloc (parseScheme url.data).2)).takeWhile
    (fun c => c ≠ ':')).map Char.toLower

/-! ### Python string ordering (code-point lexicographic, for `sorted`) -/

/-- Lexicographic comparison of character lists by code point, the order
Python's `sorted` uses on strings. -/
def lexLeb : List Char → List Char → Bool
  | [], _ => true
  | _ :: _, [] => false
  | c :: r, d :: s =>
    if c.toNat < d.toNat then true
    else if d.toNat < c.toNat then false
    else lexLeb r s

/-- `a <= b` for Python strings. -/
def strLe (a b : String) : Prop := lexLeb a.data b.data = true

instance : DecidableRel strLe := fun a b =>
  inferInstanceAs (Decidable (lexLeb a.data b.data = true))

/-- Python `sorted` on a collection of strings. -/
def pySort (l : List String) : List String := List.insertionSort strLe l

/-! ### Python `set` as a deduplicated list -/

/-- Adding one element to a set. -/
def setInsert (l : List String) (x : String) : List String :=
  if x ∈ l then l else l ++ [x]

/-- Model of `all_links.update(page_links)`. -/
def setUnionL (l : List String) (new : List String) : List String :=
  new.foldl setInsert l

/-! ### Link discovery (`collect_links_playwright` / THN pagination loop) -/

/-- Check `if max_articles and len(all_links) >= max_articles` (Python truthiness:
a cap of 0 means no cap). -/
def capHit (cap : Option Nat) (acc : List String) : Bool :=
  match cap with
  | some k => decide (k ≠ 0 ∧ k ≤ acc.length)
  | none => false

/-- The link accumulation over the successively extracted index pages:
union each page's links into the set and break as soon as the cap is
reached. -/
def accumLinks (cap : Option Nat) : List (List String) → List String → List String
  | [], acc => acc
  | pg :: rest, acc =>
    if capHit cap (setUnionL acc pg) then setUnionL acc pg
    else accumLinks cap rest (setUnionL acc pg)

/-- Model of `visit_list = sorted(all_links)` then `[:max_articles]` if the cap is
truthy. -/
def visit_list_of (all : List String) (cap : Option Nat) : List String :=
  match cap with
  | some k => if k ≠ 0 then (pySort all).take k else pySort all
  | none => pySort all

/-- Link discovery as a function of the extracted page link-sets: the sorted,
capped visit list. -/
def collect_links (pages : List (List String)) (cap : Option Nat) : List String :=
  visit_list_of (accumLinks cap pages []) cap

/-- The full deduplicated union of every page's links (what discovery yields
with no cap). -/
def unionAll (pages : List (List String)) : List String :=
  pages.foldl setUnionL []

/-! ### The index-page walk over an abstract page world (C7) -/

/-- What one index page yields after the per-page `try/except` guards: the
extracted links (empty when the extractor failed) and the next-page-finder
result (`none` when absent or failed). -/
structure Page where
  links : List String
  next : Option String

/-- The pagination loop of `collect_links_playwright` / `parse_leak_data`:
process up to `n` pages starting at `cur`; after each page break if the cap
is hit, or if the finder yields nothing, the empty string (falsy), or the
current URL (loop guard).  Returns the processed page URLs in order and the
accumulated link set. -/
def crawlPages (world : String → Page) (cap : Option Nat) :
    Nat → String → List String → List String × List String
  | 0, _, acc => ([], acc)
  | n + 1, cur, acc =>
    let acc2 := setUnionL acc (world cur).links
    if capHit cap acc2 then ([cur], acc2)
    else
      match (world cur).next with
      | none => ([cur], acc2)
      | some nxt =>
        if nxt = "" ∨ nxt = cur then ([cur], acc2)
        else
          let res := crawlPages world cap n nxt acc2
          (cur :: res.1, res.2)

/-- The full discovery phase over a page world: walk, then sort and cap. -/
def collect_links_world (world : String → Page) (seed : String) (maxPages : Nat)
    (cap : Option Nat) : List String :=
  visit_list_of (crawlPages world cap maxPages seed []).2 cap

/-! ### `run()` and the whole-run HTTP fallback (C6) -/

/-- The run summary dict
`{"seed_url": ..., "articles_collected": ..., "developer_signature": ...}`. -/
structure Summary where
  seed_url : String
  articles_collected : Nat
  developer_signature : String
deriving DecidableEq, Repr

/-- Model of `developer_signature` from `crawler/common/dev_signature.py`. -/
def developer_signature (name note : String) : String :=
  let base := name.trim
  if note ≠ "" then base ++ " :: " ++ note else base

/-- Model of `_run_with_requests`: rebuild the visit list from scratch with the
plain-HTTP pagination walk, visit each link in order, and count the articles
whose fetch-and-parse completes without an exception (`ok`). -/
def run_with_requests (world : String → Page) (ok : String → Bool)
    (seed : String) (maxPages : Nat) (cap : Option Nat) (name note : String) :
    Summary :=
  { seed_url := seed
  , articles_collected := (collect_links_world world seed maxPages cap).countP ok
  , developer_signature := developer_signature name note }

/-- Model of `run()`: return the Playwright pipeline's summary, and on any exception
from it run the whole requests pipeline instead (`browser` is the outcome of
`parse_leak_data()`; the fallback is modelled in its completing case). -/
def run (browser : Except String Summary) (world : String → Page)
    (ok : String → Bool) (seed : String) (maxPages : Nat) (cap : Option Nat)
    (name note : String) : Summary :=
  match browser with
  | .ok s => s
  | .error _ => run_with_requests world ok seed maxPages cap name note

/-! ### The processed-record flattener (`_store_processed` / generic) -/

/-- A Python value as handled by `write_obj`: scalars, lists and dicts
(dicts as insertion-ordered field lists, as Python preserves). -/
inductive PVal where
  | null
  | str (s : String)
  | int (n : Int)
  | bool (b : Bool)
  | list (xs : List PVal)
  | dict (fs : List (String × PVal))

/-- What `_redis_set` stores for a scalar: `"" if value is None else
str(value)`. -/
def renderScalar : PVal → String
  | .null => ""
  | .str s => s
  | .int n => toString n
  | .bool b => if b then "True" else "False"
  | _ => ""

mutual
/-- Flattener `write_obj` from `_store_processed` / `_store_processed_generic`: dict
fields under `prefix:key`, lists as `prefix:count` plus `prefix:i` per
element recursively, scalars as direct leaf writes. -/
def writeObj (p : String) : PVal → List Write
  | .dict fs => writeFields p fs
  | .list xs => (p ++ ":count", toString xs.length) :: writeElems p 0 xs
  | v => [(p, renderScalar v)]

/-- The enumerated element writes of a list value. -/
def writeElems (p : String) (i : Nat) : List PVal → List Write
  | [] => []
  | v :: rest => writeObj (p ++ ":" ++ toString i) v ++ writeElems p (i + 1) rest

/-- The field writes of a dict value, in insertion order. -/
def writeFields (p : String) : List (String × PVal) → List Write
  | [] => []
  | (k, v) :: rest => writeObj (p ++ ":" ++ k) v ++ writeFields p rest
end

/-- The shape of a value — what a reader knowing the expected structure
knows. -/
inductive Shape where
  | scalar
  | seq (ss : List Shape)
  | obj (fs : List (String × Shape))

mutual
/-- The shape of a value. -/
def shapeOf : PVal → Shape
  | .list xs => .seq (shapesOf xs)
  | .dict fs => .obj (shapeFields fs)
  | _ => .scalar

def shapesOf : List PVal → List Shape
  | [] => []
  | v :: rest => shapeOf v :: shapesOf rest

def shapeFields : List (String × PVal) → List (String × Shape)
  | [] => []
  | (k, v) :: rest => (k, shapeOf v) :: shapeFields rest
end

mutual
/-- What the original value looks like after a store round trip: every
scalar comes back as its stored string (`None` as `""`). -/
def stringify : PVal → PVal
  | .list xs => .list (stringifyElems xs)
  | .dict fs => .dict (stringifyFields fs)
  | v => .str (renderScalar v)

def stringifyElems : List PVal → List PVal
  | [] => []
  | v :: rest => stringify v :: stringifyElems rest

def stringifyFields : List (String × PVal) → List (String × PVal)
  | [] => []
  | (k, v) :: rest => (k, stringify v) :: stringifyFields rest
end

mutual
/-- Modelled from the spec: the generic reader that "knows the expected
shape" and is "the exact inverse operation" of the flattener (the repository
reads back only fixed shapes in `ui_server.py`, with this key scheme:
scalars at the prefix, list elements at `prefix:i`, dict fields at
`prefix:key`); absence of any leaf key makes the read fail. -/
def readObj (st : String → Option String) (p : String) : Shape → Option PVal
  | .scalar =>
    match st p with
    | some s => some (.str s)
    | none => none
  | .seq ss =>
    match readElems st p 0 ss with
    | some vs => some (.list vs)
    | none => none
  | .obj fs =>
    match readFields st p fs with
    | some vs => some (.dict vs)
    | none => none

def readElems (st : String → Option String) (p : String) (i : Nat) :
    List Shape → Option (List PVal)
  | [] => some []
  | s :: rest =>
    match readObj st (p ++ ":" ++ toString i) s, readElems st p (i + 1) rest with
    | some v, some vs => some (v :: vs)
    | _, _ => none

def readFields (st : String → Option String) (p : String) :
    List (String × Shape) → Option (List (String × PVal))
  | [] => some []
  | (k, s) :: rest =>
    match readObj st (p ++ ":" ++ k) s, readFields st p rest with
    | some v, some vs => some ((k, v) :: vs)
    | _, _ => none
end

/-- The round-trip property of one value: wherever its writes land in the
overall write sequence, if its keys are pairwise distinct and no later write
touches them, the shape-directed reader recovers its stringification. -/
def RoundTrips (v : PVal) : Prop :=
  ∀ (p : String) (pre post : List Write),
    ((writeObj p v).map Prod.fst).Nodup →
    (∀ k ∈ (writeObj p v).map Prod.fst, k ∉ post.map Prod.fst) →
    readObj (storeGet (pre ++ writeObj p v ++ post)) p (shapeOf v)
      = some (stringify v)

/-! ## Theorems -/

set_option maxRecDepth 100000 in
/-- Known-answer test for the SHA-1 embedding (FIPS 180 vector for "abc"),
evaluated in the kernel. -/
theorem sha1_known_answer :
    sha1 "abc" = "a9993e364706816aba3e25717850c26c9cd0d89d" := by decide

/-- Claim C1. Idempotent identity: when the card's URL is non-empty, the stored
identifier is the SHA-1 hex digest of the URL alone, so any two computations
over the same URL agree regardless of title, timestamp, or run. -/
theorem claim_C1_idempotent_identity (card1 card2 : Card) (now1 now2 : String)
    (h1 : card1.m_url ≠ "") (h2 : card2.m_url = card1.m_url) :
    storeRawAid card1 now1 = sha1 card1.m_url ∧
      storeRawAid card2 now2 = storeRawAid card1 now1 := by
  have e1 : storeRawAid card1 now1 = sha1 card1.m_url := by
    unfold storeRawAid pyOr
    rw [if_neg h1]
  have e2 : storeRawAid card2 now2 = sha1 card2.m_url := by
    unfold storeRawAid pyOr
    rw [if_neg (h2 ▸ h1)]
  exact ⟨e1, by rw [e1, e2, h2]⟩

/-- Witness for C1 at two concrete cards sharing a URL but with different
titles and timestamps. -/
theorem claim_C1_witness :
    storeRawAid
        { m_url := "https://thehackernews.com/2025/10/a.html", m_title := "t1",
          m_author := "", m_leak_date := none, m_description := "",
          m_location := "", m_content := "", m_network := "clearnet",
          m_base_url := "", m_links := [], m_weblink := [], m_dumplink := [],
          m_extra := [] } "111.5"
      = sha1 "https://thehackernews.com/2025/10/a.html" ∧
    storeRawAid
        { m_url := "https://thehackernews.com/2025/10/a.html", m_title := "t2",
          m_author := "x", m_leak_date := some "2025-10-01", m_description := "d",
          m_location := "", m_content := "c", m_network := "clearnet",
          m_base_url := "", m_links := ["l"], m_weblink := [], m_dumplink := [],
          m_extra := [("date_raw", "Oct 1, 2025")] } "222.75"
      = storeRawAid
        { m_url := "https://thehackernews.com/2025/10/a.html", m_title := "t1",
          m_author := "", m_leak_date := none, m_description := "",
          m_location := "", m_content := "", m_network := "clearnet",
          m_base_url := "", m_links := [], m_weblink := [], m_dumplink := [],
          m_extra := [] } "111.5" :=
  claim_C1_idempotent_identity _ _ _ _ (by decide) (by decide)

/-! ### Lookup lemmas over write lists -/

theorem storeGet_append (l1 l2 : List Write) (k : String) :
    storeGet (l1 ++ l2) k =
      match storeGet l2 k with
      | some v => some v
      | none => storeGet l1 k := by
  induction l1 with
  | nil => cases h : storeGet l2 k <;> simp [storeGet, h]
  | cons e rest ih =>
    simp only [List.cons_append, storeGet, List.append_eq]
    rw [ih]
    cases storeGet l2 k <;> cases storeGet rest k <;> simp

theorem storeGet_eq_none (l : List Write) (k : String)
    (h : ∀ e ∈ l, e.1 ≠ k) : storeGet l k = none := by
  induction l with
  | nil => rfl
  | cons e rest ih =>
    have hrest : storeGet rest k = none := ih fun x hx => h x (List.mem_cons_of_mem _ hx)
    simp [storeGet, hrest, h e (List.mem_cons_self _ _)]

/-- Left-cancellation for string concatenation. -/
theorem str_append_right_inj {a b : String} (p : String) (h : p ++ a = p ++ b) :
    a = b := by
  apply String.ext
  apply @List.append_cancel_left _ p.data
  rw [← String.data_append, ← String.data_append, h]

theorem str_append_ne (p : String) {a b : String} (h : a ≠ b) : p ++ a ≠ p ++ b :=
  fun he => h (str_append_right_inj p he)

/-- A string starting with a known 3-character prefix differs from any string
with a different 3-character prefix, whatever the tail. -/
theorem str_lit_append_ne {lit s : String} (t : String)
    (h3 : lit.data.take 3 ≠ s.data.take 3) (hl : 3 ≤ lit.data.length) :
    lit ++ t ≠ s := by
  intro he
  apply h3
  rw [← he, String.data_append, List.take_append_of_le_length hl]

theorem storeGet_idxWrites_none (b name k : String)
    (h : ∀ t, b ++ (":" ++ name ++ ":" ++ t) ≠ k) :
    ∀ i lst, storeGet (idxWrites b name i lst) k = none := by
  intro i lst
  induction lst generalizing i with
  | nil => rfl
  | cons x rest ih => simp [idxWrites, storeGet, ih, h (toString i)]

theorem storeGet_listSection_none (b name k : String) (lst : List String)
    (h1 : b ++ (":" ++ name ++ "_count") ≠ k)
    (h2 : ∀ t, b ++ (":" ++ name ++ ":" ++ t) ≠ k) :
    storeGet (listSection b name lst) k = none := by
  simp [listSection, storeGet, storeGet_idxWrites_none b name k h2 0 lst, h1]

theorem storeGet_append_none (l1 l2 : List Write) (k : String)
    (h : storeGet l2 k = none) : storeGet (l1 ++ l2) k = storeGet l1 k := by
  rw [storeGet_append, h]

theorem storeGet_append_some (l1 l2 : List Write) (k v : String)
    (h : storeGet l2 k = some v) : storeGet (l1 ++ l2) k = some v := by
  rw [storeGet_append, h]

/-- Tail-insensitive inequality for indexed keys. -/
theorem idx_tail_ne (name k t : String)
    (h3 : (":" ++ name ++ ":").data.take 3 ≠ k.data.take 3)
    (hl : 3 ≤ (":" ++ name ++ ":").data.length) :
    (":" ++ name ++ ":" ++ t) ≠ k :=
  str_lit_append_ne t h3 hl

/-- Lemma: `_thehackernews._store_raw_card` never writes a `content_html` key. -/
theorem thn_store_raw_no_content_html (card : Card) (now : String) (sAt : Nat) :
    storeGet (thn_store_raw_card card now sAt)
      ("THN:raw:" ++ storeRawAid card now ++ ":content_html") = none := by
  simp only [thn_store_raw_card]
  generalize "THN:raw:" ++ storeRawAid card now = b
  rw [storeGet_append_none _ _ _ (storeGet_listSection_none b "dumplink" _ _
        (str_append_ne b (by decide))
        (fun t => str_append_ne b (idx_tail_ne _ _ t (by decide) (by decide)))),
      storeGet_append_none _ _ _ (storeGet_listSection_none b "weblink" _ _
        (str_append_ne b (by decide))
        (fun t => str_append_ne b (idx_tail_ne _ _ t (by decide) (by decide)))),
      storeGet_append_none _ _ _ (storeGet_listSection_none b "links" _ _
        (str_append_ne b (by decide))
        (fun t => str_append_ne b (idx_tail_ne _ _ t (by decide) (by decide)))),
      storeGet_append_none _ _ _ (storeGet_eq_none _ _ (by
        intro e he
        simp only [List.mem_cons, List.not_mem_nil, or_false] at he
        rcases he with rfl | rfl | rfl | rfl | rfl | rfl | rfl <;>
          exact str_append_ne b (by decide))),
      storeGet_append_none _ _ _ (storeGet_eq_none _ _ (by
        intro e he
        simp only [List.mem_cons, List.not_mem_nil, or_false] at he
        rcases he with rfl
        exact str_append_ne b (by decide)))]
  exact storeGet_eq_none _ _ (by
    intro e he
    simp only [List.mem_cons, List.not_mem_nil, or_false] at he
    rcases he with rfl | rfl | rfl | rfl <;> exact str_append_ne b (by decide))

/-- A whole list section misses the key `b ++ k` when `k` differs from the
`_count` suffix and from the indexed suffixes in their first 3 characters. -/
theorem section_none (b name k : String) (lst : List String)
    (hc : (":" ++ name ++ "_count") ≠ k)
    (hi : (":" ++ name ++ ":").data.take 3 ≠ k.data.take 3)
    (hl : 3 ≤ (":" ++ name ++ ":").data.length) :
    storeGet (listSection b name lst) (b ++ k) = none :=
  storeGet_listSection_none b name _ lst (str_append_ne b hc)
    (fun t => str_append_ne b (idx_tail_ne _ _ t hi hl))

/-- Lemma: `store_raw_card_generic` leaves `date_raw` and `content_html` readable
under the record base key, with the extra-bag values (empty when absent). -/
theorem generic_store_raw_extras (pre : String) (card : Card) (now seed : String)
    (sAt : Nat) :
    storeGet (store_raw_card_generic pre card now seed sAt)
        (pre ++ ":" ++ storeRawAid card now ++ ":date_raw")
      = some (extraGet card "date_raw") ∧
    storeGet (store_raw_card_generic pre card now seed sAt)
        (pre ++ ":" ++ storeRawAid card now ++ ":content_html")
      = some (extraGet card "content_html") := by
  simp only [store_raw_card_generic]
  generalize pre ++ ":" ++ storeRawAid card now = b
  constructor
  · rw [storeGet_append_none _ _ _ (section_none b "dumplink" _ _ (by decide) (by decide) (by decide)),
        storeGet_append_none _ _ _ (section_none b "weblink" _ _ (by decide) (by decide) (by decide)),
        storeGet_append_none _ _ _ (section_none b "links" _ _ (by decide) (by decide) (by decide))]
    apply storeGet_append_some
    simp [storeGet, str_append_ne b (show (":content_html" : String) ≠ ":date_raw" by decide)]
  · rw [storeGet_append_none _ _ _ (section_none b "dumplink" _ _ (by decide) (by decide) (by decide)),
        storeGet_append_none _ _ _ (section_none b "weblink" _ _ (by decide) (by decide) (by decide)),
        storeGet_append_none _ _ _ (section_none b "links" _ _ (by decide) (by decide) (by decide))]
    apply storeGet_append_some
    simp [storeGet]

/-- Lemma: `_hackread._store_raw_card` leaves both extras readable. -/
theorem hackread_store_raw_extras (card : Card) (now : String) (sAt : Nat) :
    storeGet (hackread_store_raw_card card now sAt)
        ("HACKREAD:raw:" ++ storeRawAid card now ++ ":date_raw")
      = some (extraGet card "date_raw") ∧
    storeGet (hackread_store_raw_card card now sAt)
        ("HACKREAD:raw:" ++ storeRawAid card now ++ ":content_html")
      = some (extraGet card "content_html") := by
  simp only [hackread_store_raw_card]
  generalize "HACKREAD:raw:" ++ storeRawAid card now = b
  have h7 : ∀ k, (":description" : String) ≠ k → (":location" : String) ≠ k →
      (":content" : String) ≠ k → (":network:type" : String) ≠ k →
      (":seed_url" : String) ≠ k → (":rendered" : String) ≠ k →
      (":scraped_at" : String) ≠ k →
      storeGet [(b ++ ":description", card.m_description),
        (b ++ ":location", pyOr card.m_location ""),
        (b ++ ":content", pyOr card.m_content ""),
        (b ++ ":network:type", card.m_network),
        (b ++ ":seed_url", "https://hackread.com/category/hacking-news/leaks-affairs/"),
        (b ++ ":rendered", "1"), (b ++ ":scraped_at", toString sAt)] (b ++ k) = none := by
    intro k h1 h2 h3 h4 h5 h6 h7
    apply storeGet_eq_none
    intro e he
    simp only [List.mem_cons, List.not_mem_nil, or_false] at he
    rcases he with rfl | rfl | rfl | rfl | rfl | rfl | rfl <;>
      first
      | exact str_append_ne b h1 | exact str_append_ne b h2
      | exact str_append_ne b h3 | exact str_append_ne b h4
      | exact str_append_ne b h5 | exact str_append_ne b h6
      | exact str_append_ne b h7
  constructor
  · rw [storeGet_append_none _ _ _ (section_none b "dumplink" _ _ (by decide) (by decide) (by decide)),
        storeGet_append_none _ _ _ (section_none b "weblink" _ _ (by decide) (by decide) (by decide)),
        storeGet_append_none _ _ _ (section_none b "links" _ _ (by decide) (by decide) (by decide)),
        storeGet_append_none _ _ _ (h7 ":date_raw" (by decide) (by decide) (by decide)
          (by decide) (by decide) (by decide) (by decide))]
    apply storeGet_append_some
    simp [storeGet, str_append_ne b (show (":content_html" : String) ≠ ":date_raw" by decide)]
  · rw [storeGet_append_none _ _ _ (section_none b "dumplink" _ _ (by decide) (by decide) (by decide)),
        storeGet_append_none _ _ _ (section_none b "weblink" _ _ (by decide) (by decide) (by decide)),
        storeGet_append_none _ _ _ (section_none b "links" _ _ (by decide) (by decide) (by decide)),
        storeGet_append_none _ _ _ (h7 ":content_html" (by decide) (by decide) (by decide)
          (by decide) (by decide) (by decide) (by decide))]
    apply storeGet_append_some
    simp [storeGet]

/-- Lemma: `_thehackernews._store_raw_card` leaves `date_raw` readable. -/
theorem thn_store_raw_date_raw (card : Card) (now : String) (sAt : Nat) :
    storeGet (thn_store_raw_card card now sAt)
        ("THN:raw:" ++ storeRawAid card now ++ ":date_raw")
      = some (extraGet card "date_raw") := by
  simp only [thn_store_raw_card]
  generalize "THN:raw:" ++ storeRawAid card now = b
  rw [storeGet_append_none _ _ _ (section_none b "dumplink" _ _ (by decide) (by decide) (by decide)),
      storeGet_append_none _ _ _ (section_none b "weblink" _ _ (by decide) (by decide) (by decide)),
      storeGet_append_none _ _ _ (section_none b "links" _ _ (by decide) (by decide) (by decide)),
      storeGet_append_none _ _ _ (storeGet_eq_none _ _ (by
        intro e he
        simp only [List.mem_cons, List.not_mem_nil, or_false] at he
        rcases he with rfl | rfl | rfl | rfl | rfl | rfl | rfl <;>
          exact str_append_ne b (by decide)))]
  apply storeGet_append_some
  simp [storeGet]

/-- Claim C8 counterexample: the claim promises a `content_html` key for every card
stored by `_store_raw_card`, but `_thehackernews._store_raw_card` writes none;
at this concrete card the store holds nothing under the `content_html` key. -/
theorem claim_C8_counterexample :
    storeGet
      (thn_store_raw_card
        { m_url := "https://thehackernews.com/2025/10/a.html", m_title := "T",
          m_author := "A", m_leak_date := some "2025-10-01",
          m_description := "d", m_location := "", m_content := "c",
          m_network := "clearnet", m_base_url := "https://thehackernews.com/",
          m_links := ["https://thehackernews.com/2025/10/a.html"],
          m_weblink := ["https://thehackernews.com/2025/10/a.html"],
          m_dumplink := ["https://thehackernews.com/2025/10/a.html"],
          m_extra := [("date_raw", "Oct 1, 2025")] } "1700000000.25" 1700000000)
      ("THN:raw:" ++ storeRawAid
        { m_url := "https://thehackernews.com/2025/10/a.html", m_title := "T",
          m_author := "A", m_leak_date := some "2025-10-01",
          m_description := "d", m_location := "", m_content := "c",
          m_network := "clearnet", m_base_url := "https://thehackernews.com/",
          m_links := ["https://thehackernews.com/2025/10/a.html"],
          m_weblink := ["https://thehackernews.com/2025/10/a.html"],
          m_dumplink := ["https://thehackernews.com/2025/10/a.html"],
          m_extra := [("date_raw", "Oct 1, 2025")] } "1700000000.25"
        ++ ":content_html") = none :=
  thn_store_raw_no_content_html _ _ _

/-- Claim C8 (amended). Unconditional optional-extras keys: for every card,
`store_raw_card_generic` and `_hackread._store_raw_card` leave both
`<base>:date_raw` and `<base>:content_html` in the store, holding the extra
bag's value or the empty string (which is what `extraGet` yields when the
entry is absent); `_thehackernews._store_raw_card` does so only for
`date_raw` and never writes a `content_html` key. -/
theorem claim_C8_optional_extras (pre : String) (card : Card) (now seed : String)
    (sAt : Nat) :
    (storeGet (store_raw_card_generic pre card now seed sAt)
        (pre ++ ":" ++ storeRawAid card now ++ ":date_raw")
      = some (extraGet card "date_raw") ∧
     storeGet (store_raw_card_generic pre card now seed sAt)
        (pre ++ ":" ++ storeRawAid card now ++ ":content_html")
      = some (extraGet card "content_html")) ∧
    (storeGet (hackread_store_raw_card card now sAt)
        ("HACKREAD:raw:" ++ storeRawAid card now ++ ":date_raw")
      = some (extraGet card "date_raw") ∧
     storeGet (hackread_store_raw_card card now sAt)
        ("HACKREAD:raw:" ++ storeRawAid card now ++ ":content_html")
      = some (extraGet card "content_html")) ∧
    (storeGet (thn_store_raw_card card now sAt)
        ("THN:raw:" ++ storeRawAid card now ++ ":date_raw")
      = some (extraGet card "date_raw") ∧
     storeGet (thn_store_raw_card card now sAt)
        ("THN:raw:" ++ storeRawAid card now ++ ":content_html") = none) :=
  ⟨generic_store_raw_extras pre card now seed sAt,
   hackread_store_raw_extras card now sAt,
   thn_store_raw_date_raw card now sAt,
   thn_store_raw_no_content_html card now sAt⟩

/-- Splitting a pipe-free character list yields that single chunk. -/
theorem splitPipe_pipe_free (l : List Char) (h : '|' ∉ l) : splitPipe l = [l] := by
  induction l with
  | nil => rfl
  | cons c rest ih =>
    have hc : c ≠ '|' := fun hc => h (hc ▸ List.mem_cons_self _ _)
    have hr := ih fun hm => h (List.mem_cons_of_mem _ hm)
    simp [splitPipe, hc, hr]

/-- Splitting after a pipe-free chunk and a separator peels off the chunk. -/
theorem splitPipe_chunk (x l : List Char) (h : '|' ∉ x) :
    splitPipe (x ++ '|' :: l) = x :: splitPipe l := by
  induction x with
  | nil => simp [splitPipe]
  | cons c rest ih =>
    have hc : c ≠ '|' := fun hc => h (hc ▸ List.mem_cons_self _ _)
    have hr := ih fun hm => h (List.mem_cons_of_mem _ hm)
    simp [splitPipe, hc, hr]

/-- Every chunk produced by splitting is pipe-free. -/
theorem splitPipe_mem_pipe_free (l : List Char) :
    ∀ x ∈ splitPipe l, '|' ∉ x := by
  induction l with
  | nil =>
    intro x hx
    simp [splitPipe] at hx
    simp [hx]
  | cons c rest ih =>
    intro x hx
    by_cases hc : c = '|'
    · simp [splitPipe, hc] at hx
      rcases hx with rfl | hx
      · simp
      · exact ih x hx
    · simp only [splitPipe, if_neg hc] at hx
      cases hsp : splitPipe rest with
      | nil =>
        simp [hsp] at hx
        simp only [hx, List.mem_singleton]
        exact fun h => hc h.symm
      | cons p ps =>
        rw [hsp] at hx
        rcases List.mem_cons.1 hx with rfl | hx
        · intro hm
          rcases List.mem_cons.1 hm with hce | hm
          · exact hc hce.symm
          · exact ih p (hsp ▸ List.mem_cons_self _ _) hm
        · exact ih x (hsp ▸ List.mem_cons_of_mem _ hx)

/-- Split is a left inverse of join on nonempty lists of pipe-free chunks. -/
theorem splitPipe_joinPipe (ps : List (List Char)) (hne : ps ≠ [])
    (h : ∀ x ∈ ps, '|' ∉ x) : splitPipe (joinPipe ps) = ps := by
  induction ps with
  | nil => exact absurd rfl hne
  | cons x rest ih =>
    cases rest with
    | nil => exact splitPipe_pipe_free x (h x (List.mem_cons_self _ _))
    | cons y rest2 =>
      have hx := h x (List.mem_cons_self _ _)
      have hr := ih (by simp) fun z hz => h z (List.mem_cons_of_mem _ hz)
      calc splitPipe (joinPipe (x :: y :: rest2))
          = splitPipe (x ++ '|' :: joinPipe (y :: rest2)) := rfl
        _ = x :: splitPipe (joinPipe (y :: rest2)) := splitPipe_chunk _ _ hx
        _ = x :: y :: rest2 := by rw [hr]

/-- Reading `members` of a joined list of nonempty pipe-free strings is that list. -/
theorem members_joinPipeS (parts : List String) (hne : parts ≠ [])
    (hp : ∀ x ∈ parts, ¬ '|' ∈ x.data) (hnee : ∀ x ∈ parts, x ≠ "") :
    members (joinPipeS parts) = parts := by
  unfold members split_pipe joinPipeS
  rw [show (String.mk (joinPipe (parts.map String.data))).data
        = joinPipe (parts.map String.data) from rfl]
  rw [splitPipe_joinPipe _ (by simpa using hne) (by
    intro x hx
    rcases List.mem_map.1 hx with ⟨s, hs, rfl⟩
    exact hp s hs)]
  rw [List.map_map]
  have hid : parts.map (fun s => (⟨s.data⟩ : String)) = parts := by
    have : (fun s : String => (⟨s.data⟩ : String)) = id := by
      funext s
      rfl
    rw [this, List.map_id]
  rw [show ((fun l => (⟨l⟩ : String)) ∘ String.data) = fun s : String => (⟨s.data⟩ : String)
      from rfl, hid]
  exact List.filter_eq_self.2 fun a ha => by simpa using hnee a ha

/-- Every member of an index string is nonempty and pipe-free. -/
theorem members_wf (s : String) :
    ∀ x ∈ members s, x ≠ "" ∧ ¬ '|' ∈ x.data := by
  intro x hx
  unfold members split_pipe at hx
  rcases List.mem_filter.1 hx with ⟨hmem, hne⟩
  rcases List.mem_map.1 hmem with ⟨l, hl, rfl⟩
  exact ⟨by simpa using hne, splitPipe_mem_pipe_free s.data l hl⟩

/-- The `if cur else []` guard in `_append_index` is redundant: splitting the
empty string filters down to no members. -/
theorem members_empty_guard (cur : String) :
    (if cur = "" then [] else members cur) = members cur := by
  by_cases h : cur = ""
  · subst h; rfl
  · rw [if_neg h]

/-- Claim C4 counterexample: appending the empty id to an empty index does not make
it a member — the rewritten string has the same (empty) member sequence, so
"id appended as the new last element" fails for `id = ""`. -/
theorem claim_C4_counterexample :
    append_index "" "" = "" ∧
      members (append_index "" "") ≠ members "" ++ [""] := by
  constructor
  · rfl
  · intro h
    simp [append_index, members, split_pipe, splitPipe, joinPipeS, joinPipe] at h

/-- Claim C4 (amended). Append-only index semantics, for ids that are nonempty and
delimiter-free (as the SHA-1 hex ids used by the crawlers are): if the id is
already a member the stored string is left unchanged (so a second append of
the same id is a no-op), otherwise the member sequence becomes the old
sequence with the id appended last — nothing is removed or reordered — and
when the current member sequence is duplicate-free the new one still is, so
each member occurs exactly once. -/
theorem claim_C4_append_index (cur item_id : String) (hid : item_id ≠ "")
    (hpipe : ¬ '|' ∈ item_id.data) :
    (item_id ∈ members cur → append_index cur item_id = cur) ∧
    (item_id ∉ members cur →
      members (append_index cur item_id) = members cur ++ [item_id]) ∧
    ((members cur).Nodup → (members (append_index cur item_id)).Nodup) ∧
    append_index (append_index cur item_id) item_id = append_index cur item_id := by
  have hguard := members_empty_guard cur
  have hmemgen : ∀ s t : String, t ∈ members s → append_index s t = s := by
    intro s t h
    unfold append_index
    rw [members_empty_guard, if_pos h]
  have happend : item_id ∉ members cur →
      members (append_index cur item_id) = members cur ++ [item_id] := by
    intro hnot
    unfold append_index
    rw [hguard, if_neg hnot]
    apply members_joinPipeS
    · simp
    · intro x hx
      rcases List.mem_append.1 hx with hx | hx
      · exact (members_wf cur x hx).2
      · rw [List.mem_singleton.1 hx]; exact hpipe
    · intro x hx
      rcases List.mem_append.1 hx with hx | hx
      · exact (members_wf cur x hx).1
      · rw [List.mem_singleton.1 hx]; exact hid
  have hmem : item_id ∈ members cur → append_index cur item_id = cur :=
    hmemgen cur item_id
  refine ⟨hmem, happend, ?_, ?_⟩
  · intro hnd
    by_cases hin : item_id ∈ members cur
    · rw [hmem hin]; exact hnd
    · rw [happend hin]
      simp [List.nodup_append, hnd, hin]
  · by_cases hin : item_id ∈ members cur
    · rw [hmem hin, hmem hin]
    · have hm2 : item_id ∈ members (append_index cur item_id) := by
        rw [happend hin]; simp
      exact hmemgen _ _ hm2

/-- Witness for C4 at `cur = "a|b"`, `id = "c"`. -/
theorem claim_C4_witness :
    ("c" ∉ members "a|b") ∧
      members (append_index "a|b" "c") = members "a|b" ++ ["c"] ∧
      append_index (append_index "a|b" "c") "c" = append_index "a|b" "c" :=
  ⟨by decide,
   (claim_C4_append_index "a|b" "c" (by decide) (by decide)).2.1 (by decide),
   (claim_C4_append_index "a|b" "c" (by decide) (by decide)).2.2.2⟩

theorem rlookup_rassign_self (st : RStore) (key : String) (entry : REntry) :
    rlookup (rassign st key entry) key = some entry := by
  simp [rlookup, rassign, List.find?]

theorem rlookup_rerase_self (st : RStore) (key : String) :
    rlookup (rerase st key) key = none := by
  unfold rlookup
  rw [List.find?_eq_none.2]
  intro e he
  have := (List.mem_filter.1 he).2
  simp only [decide_not, Bool.not_eq_true', decide_eq_false_iff_not] at this
  simp [this]

/-- Claim C5. Lazy expiry: after `set(key, v, expiry = t)` at time `n0` (with
`t ≥ 1`), a `get` at any strictly later-than-expiry time `n1 > n0 + t`
returns the caller's default and deletes the entry, so a further `get` at any
time also returns the default; a `set` without expiry stores the value
indefinitely (a `get` at any time returns it).  Expiry happens only inside
`get` — the model has no other transition touching the store. -/
theorem claim_C5_lazy_expiry (st : RStore) (n0 t n1 n2 n3 : Nat)
    (key v d : String) (ht : 1 ≤ t) (hlate : n0 + t < n1) :
    ((rget (rset st n0 key v (some t)) n1 key d).1 = d ∧
     rlookup (rget (rset st n0 key v (some t)) n1 key d).2 key = none ∧
     (rget (rget (rset st n0 key v (some t)) n1 key d).2 n2 key d).1 = d) ∧
    (rget (rset st n0 key v none) n3 key d).1 = v := by
  have hset : rlookup (rset st n0 key v (some t)) key = some (v, some (n0 + t)) := by
    unfold rset
    simp only [if_pos (by omega : t ≠ 0)]
    exact rlookup_rassign_self st key (v, some (n0 + t))
  have hexp : (n0 + t ≠ 0 ∧ n1 > n0 + t) := ⟨by omega, hlate⟩
  have hget1 : rget (rset st n0 key v (some t)) n1 key d
      = (d, rerase (rset st n0 key v (some t)) key) := by
    unfold rget
    rw [hset]
    simp [hexp.1, hexp.2]
  refine ⟨⟨by rw [hget1], ?_, ?_⟩, ?_⟩
  · rw [hget1]
    exact rlookup_rerase_self _ key
  · rw [hget1]
    unfold rget
    rw [rlookup_rerase_self _ key]
  · unfold rget rset
    simp only
    rw [rlookup_rassign_self st key (v, none)]

/-- Witness for C5 at `t = 1`, `n0 = 0`, `n1 = 2`. -/
theorem claim_C5_witness :
    ((rget (rset [] 0 "k" "v" (some 1)) 2 "k" "dflt").1 = "dflt" ∧
     rlookup (rget (rset [] 0 "k" "v" (some 1)) 2 "k" "dflt").2 "k" = none ∧
     (rget (rget (rset [] 0 "k" "v" (some 1)) 2 "k" "dflt").2 7 "k" "dflt").1
       = "dflt") ∧
    (rget (rset [] 0 "k" "v" none) 99 "k" "dflt").1 = "v" :=
  claim_C5_lazy_expiry [] 0 1 2 7 99 "k" "v" "dflt" (by decide) (by decide)

/-- Claim C9 counterexample: the claim says `_redis_set` swallows backend errors,
but `_thehackernews._redis_set` has no handler — a raising backend call
propagates to the caller instead of being a no-op. -/
theorem claim_C9_counterexample :
    redis_set_thn (Except.error "connection refused")
        = Except.error "connection refused" ∧
      redis_set_thn (Except.error "connection refused") ≠ Except.ok () := by
  constructor
  · rfl
  · intro h
    simp [redis_set_thn] at h

/-- Claim C9 (amended). Cache failure swallowing: every backend error during a
`get` makes both wrappers return the caller's default; a backend error
during `set` is swallowed by the base-class wrapper
(`CrawlerBase._redis_set`), but `_thehackernews._redis_set` forwards the
backend outcome unchanged, so its errors propagate. -/
theorem claim_C9_cache_failures (e default : String) (b : Except String Unit) :
    redis_get_base (Except.error e) default = default ∧
    redis_get_thn (Except.error e) default = default ∧
    redis_set_base (Except.error e) = Except.ok () ∧
    redis_set_thn b = b :=
  ⟨rfl, rfl, rfl, rfl⟩

/-- Claim C10 counterexample: for an onion URL carrying a port, the host ends in
`.onion` but the code compares the whole netloc (`x.onion:8080`), so it
answers "clearnet", not "tor". -/
theorem claim_C10_counterexample :
    urlHostname "http://x.onion:8080/a" = "x.onion".data ∧
      (".onion".data).isSuffixOf (urlHostname "http://x.onion:8080/a") = true ∧
      get_network_type "http://x.onion:8080/a" = "clearnet" ∧
      get_network_type "http://x.onion:8080/a" ≠ "tor" := by
  refine ⟨by decide, by decide, by decide, by decide⟩

/-- Claim C10 (amended). Network classification totality and onion precedence:
`get_network_type` always returns exactly one of "tor", "clearnet",
"unknown" (it is a total function, and the `except` in the source makes even
parser errors fall through to "unknown"); it returns "tor" whenever the
URL's lowercased netloc (authority component, including any port) ends with
".onion" — even for http/https schemes, since the onion check runs first —
"clearnet" for http/https URLs whose netloc does not end in ".onion", and
"unknown" otherwise. -/
theorem claim_C10_network_type (url : String) :
    (get_network_type url = "tor" ∨ get_network_type url = "clearnet" ∨
      get_network_type url = "unknown") ∧
    ((".onion".data).isSuffixOf
        ((parseNetloc (parseScheme url.data).2).map Char.toLower) = true →
      get_network_type url = "tor") ∧
    ((".onion".data).isSuffixOf
        ((parseNetloc (parseScheme url.data).2).map Char.toLower) = false →
      ((parseScheme url.data).1 = "http".data ∨
        (parseScheme url.data).1 = "https".data) →
      get_network_type url = "clearnet") ∧
    ((".onion".data).isSuffixOf
        ((parseNetloc (parseScheme url.data).2).map Char.toLower) = false →
      ¬ ((parseScheme url.data).1 = "http".data ∨
        (parseScheme url.data).1 = "https".data) →
      get_network_type url = "unknown") := by
  unfold get_network_type
  by_cases honion : (".onion".data).isSuffixOf
      ((parseNetloc (parseScheme url.data).2).map Char.toLower) = true
  · simp [honion]
  · have honion2 : (".onion".data).isSuffixOf
        ((parseNetloc (parseScheme url.data).2).map Char.toLower) = false :=
      Bool.eq_false_iff.2 honion
    by_cases hscheme : (parseScheme url.data).1 = "http".data ∨
        (parseScheme url.data).1 = "https".data
    · simp [honion2, hscheme]
    · simp [honion2, hscheme]

/-- Witness for C10 on concrete tor, clearnet, and unknown inputs. -/
theorem claim_C10_witness :
    get_network_type "http://secret.onion" = "tor" ∧
      get_network_type "https://example.com/x" = "clearnet" ∧
      get_network_type "ftp://example.com" = "unknown" :=
  ⟨(claim_C10_network_type "http://secret.onion").2.1 (by decide),
   (claim_C10_network_type "https://example.com/x").2.2.1 (by decide) (by decide),
   (claim_C10_network_type "ftp://example.com").2.2.2 (by decide) (by decide)⟩

theorem lexLeb_total : ∀ l1 l2 : List Char,
    lexLeb l1 l2 = true ∨ lexLeb l2 l1 = true
  | [], _ => Or.inl rfl
  | _ :: _, [] => Or.inr rfl
  | c :: r, d :: s => by
    simp only [lexLeb]
    by_cases h1 : c.toNat < d.toNat
    · left; rw [if_pos h1]
    · by_cases h2 : d.toNat < c.toNat
      · right; rw [if_pos h2]
      · rcases lexLeb_total r s with h | h
        · left; rw [if_neg h1, if_neg h2]; exact h
        · right; rw [if_neg h2, if_neg h1]; exact h

theorem lexLeb_trans : ∀ l1 l2 l3 : List Char,
    lexLeb l1 l2 = true → lexLeb l2 l3 = true → lexLeb l1 l3 = true
  | [], _, _, _, _ => rfl
  | _ :: _, [], _, h, _ => by simp [lexLeb] at h
  | _ :: _, _ :: _, [], _, h => by simp [lexLeb] at h
  | c :: r, d :: s, e :: t, h1, h2 => by
    simp only [lexLeb] at h1 h2 ⊢
    by_cases hcd : c.toNat < d.toNat
    · by_cases hde : d.toNat < e.toNat
      · rw [if_pos (show c.toNat < e.toNat by omega)]
      · by_cases hed : e.toNat < d.toNat
        · rw [if_neg hde, if_pos hed] at h2
          simp at h2
        · rw [if_pos (show c.toNat < e.toNat by omega)]
    · by_cases hdc : d.toNat < c.toNat
      · rw [if_neg hcd, if_pos hdc] at h1
        simp at h1
      · rw [if_neg hcd, if_neg hdc] at h1
        by_cases hde : d.toNat < e.toNat
        · rw [if_pos (show c.toNat < e.toNat by omega)]
        · by_cases hed : e.toNat < d.toNat
          · rw [if_neg hde, if_pos hed] at h2
            simp at h2
          · rw [if_neg hde, if_neg hed] at h2
            rw [if_neg (show ¬ c.toNat < e.toNat by omega),
                if_neg (show ¬ e.toNat < c.toNat by omega)]
            exact lexLeb_trans r s t h1 h2

theorem lexLeb_antisymm : ∀ l1 l2 : List Char,
    lexLeb l1 l2 = true → lexLeb l2 l1 = true → l1 = l2
  | [], [], _, _ => rfl
  | [], _ :: _, _, h => by simp [lexLeb] at h
  | _ :: _, [], h, _ => by simp [lexLeb] at h
  | c :: r, d :: s, h1, h2 => by
    simp only [lexLeb] at h1 h2
    by_cases hcd : c.toNat < d.toNat
    · rw [if_neg (show ¬ d.toNat < c.toNat by omega), if_pos hcd] at h2
      simp at h2
    · by_cases hdc : d.toNat < c.toNat
      · rw [if_neg hcd, if_pos hdc] at h1
        simp at h1
      · rw [if_neg hcd, if_neg hdc] at h1
        rw [if_neg hdc, if_neg hcd] at h2
        have hc : c = d := by
          have hn : c.toNat = d.toNat := by omega
          rw [← Char.ofNat_toNat c, ← Char.ofNat_toNat d, hn]
        rw [hc, lexLeb_antisymm r s h1 h2]

theorem strLe_total : ∀ a b : String, strLe a b ∨ strLe b a :=
  fun a b => lexLeb_total a.data b.data

theorem strLe_trans : ∀ a b c : String, strLe a b → strLe b c → strLe a c :=
  fun a b c h1 h2 => lexLeb_trans a.data b.data c.data h1 h2

theorem strLe_antisymm : ∀ a b : String, strLe a b → strLe b a → a = b :=
  fun a b h1 h2 => String.ext (lexLeb_antisymm a.data b.data h1 h2)

theorem pySort_sorted (l : List String) : List.Sorted strLe (pySort l) := by
  haveI : IsTotal String strLe := ⟨strLe_total⟩
  haveI : IsTrans String strLe := ⟨strLe_trans⟩
  exact List.sorted_insertionSort strLe l

theorem pySort_perm (l : List String) : (pySort l).Perm l :=
  List.perm_insertionSort strLe l

/-- Permutation-equal inputs sort identically. -/
theorem pySort_congr {l1 l2 : List String} (h : l1.Perm l2) :
    pySort l1 = pySort l2 := by
  haveI : IsAntisymm String strLe := ⟨strLe_antisymm⟩
  exact List.eq_of_perm_of_sorted
    ((pySort_perm l1).trans (h.trans (pySort_perm l2).symm))
    (pySort_sorted l1) (pySort_sorted l2)

theorem mem_setInsert (l : List String) (x y : String) :
    y ∈ setInsert l x ↔ y ∈ l ∨ y = x := by
  unfold setInsert
  by_cases h : x ∈ l
  · simp only [if_pos h]
    constructor
    · exact Or.inl
    · rintro (hy | rfl) <;> [exact hy; exact h]
  · simp [if_neg h]

theorem nodup_setInsert (l : List String) (x : String) (h : l.Nodup) :
    (setInsert l x).Nodup := by
  unfold setInsert
  by_cases hx : x ∈ l
  · simpa [hx]
  · simp [hx, List.nodup_append, h]

theorem mem_setUnionL (l new : List String) (y : String) :
    y ∈ setUnionL l new ↔ y ∈ l ∨ y ∈ new := by
  induction new generalizing l with
  | nil => simp [setUnionL]
  | cons a rest ih =>
    show y ∈ setUnionL (setInsert l a) rest ↔ _
    rw [ih, mem_setInsert]
    simp only [List.mem_cons]
    tauto

theorem nodup_setUnionL (l new : List String) (h : l.Nodup) :
    (setUnionL l new).Nodup := by
  induction new generalizing l with
  | nil => exact h
  | cons a rest ih => exact ih _ (nodup_setInsert l a h)

/-- Sets built the same way from membership-equal pieces are permutations of
one another. -/
theorem setUnionL_perm {l1 l2 p q : List String} (hl : l1.Perm l2)
    (h1 : l1.Nodup) (hpq : ∀ x, x ∈ p ↔ x ∈ q) :
    (setUnionL l1 p).Perm (setUnionL l2 q) := by
  have h2 : l2.Nodup := hl.nodup_iff.1 h1
  refine (List.perm_ext_iff_of_nodup (nodup_setUnionL _ _ h1)
    (nodup_setUnionL _ _ h2)).2 fun a => ?_
  rw [mem_setUnionL, mem_setUnionL, hpq a, hl.mem_iff]

theorem accumLinks_nodup (cap : Option Nat) (pages : List (List String))
    (acc : List String) (h : acc.Nodup) : (accumLinks cap pages acc).Nodup := by
  induction pages generalizing acc with
  | nil => exact h
  | cons pg rest ih =>
    unfold accumLinks
    by_cases hcap : capHit cap (setUnionL acc pg) = true
    · rw [if_pos hcap]; exact nodup_setUnionL _ _ h
    · rw [if_neg hcap]; exact ih _ (nodup_setUnionL _ _ h)

theorem mem_foldl_setUnionL (pages : List (List String)) (acc : List String)
    (y : String) :
    y ∈ pages.foldl setUnionL acc ↔ y ∈ acc ∨ ∃ pg ∈ pages, y ∈ pg := by
  induction pages generalizing acc with
  | nil => simp
  | cons pg rest ih =>
    show y ∈ rest.foldl setUnionL (setUnionL acc pg) ↔ _
    rw [ih, mem_setUnionL]
    simp only [List.mem_cons]
    constructor
    · rintro ((hy | hy) | ⟨q, hq, hy⟩)
      · exact Or.inl hy
      · exact Or.inr ⟨pg, Or.inl rfl, hy⟩
      · exact Or.inr ⟨q, Or.inr hq, hy⟩
    · rintro (hy | ⟨q, rfl | hq, hy⟩)
      · exact Or.inl (Or.inl hy)
      · exact Or.inl (Or.inr hy)
      · exact Or.inr ⟨q, hq, hy⟩

theorem accumLinks_sub (cap : Option Nat) (pages : List (List String))
    (acc : List String) :
    ∀ y ∈ accumLinks cap pages acc, y ∈ pages.foldl setUnionL acc := by
  induction pages generalizing acc with
  | nil => intro y hy; exact hy
  | cons pg rest ih =>
    intro y hy
    unfold accumLinks at hy
    show y ∈ rest.foldl setUnionL (setUnionL acc pg)
    by_cases hcap : capHit cap (setUnionL acc pg) = true
    · rw [if_pos hcap] at hy
      rw [mem_foldl_setUnionL]
      exact Or.inl hy
    · rw [if_neg hcap] at hy
      exact ih _ y hy

/-- Either no break happened and the accumulated set is the full union, or
the break guarantees at least `k` accumulated links. -/
theorem accumLinks_cases (k : Nat) (pages : List (List String))
    (acc : List String) :
    accumLinks (some k) pages acc = pages.foldl setUnionL acc ∨
      (k ≠ 0 ∧ k ≤ (accumLinks (some k) pages acc).length) := by
  induction pages generalizing acc with
  | nil => exact Or.inl rfl
  | cons pg rest ih =>
    unfold accumLinks
    by_cases hcap : capHit (some k) (setUnionL acc pg) = true
    · rw [if_pos hcap]
      right
      unfold capHit at hcap
      exact of_decide_eq_true hcap
    · rw [if_neg hcap]
      exact ih _

/-- Permutation-stable accumulation: membership-equal page link-sets starting
from permuted accumulators accumulate to permuted sets (in particular the cap
break fires at the same page). -/
theorem accumLinks_perm (cap : Option Nat) (pages1 pages2 : List (List String))
    (hf : List.Forall₂ (fun p q => ∀ x, x ∈ p ↔ x ∈ q) pages1 pages2) :
    ∀ acc1 acc2 : List String, acc1.Perm acc2 → acc1.Nodup →
      (accumLinks cap pages1 acc1).Perm (accumLinks cap pages2 acc2) := by
  induction hf with
  | nil => intro acc1 acc2 hacc _; exact hacc
  | cons hpq hrest ih =>
    rename_i p q ps qs
    intro acc1 acc2 hacc hnd
    unfold accumLinks
    have hperm := setUnionL_perm hacc hnd hpq
    have hcapeq : capHit cap (setUnionL acc1 p) = capHit cap (setUnionL acc2 q) := by
      unfold capHit
      cases cap with
      | none => rfl
      | some k => rw [hperm.length_eq]
    by_cases hcap : capHit cap (setUnionL acc1 p) = true
    · rw [if_pos hcap, if_pos (hcapeq ▸ hcap)]
      exact hperm
    · rw [if_neg hcap, if_neg (hcapeq ▸ hcap)]
      exact ih _ _ hperm (nodup_setUnionL _ _ hnd)

/-- Claim C2 counterexample: discovering `{a, c}` on page one and `{b}` on page
two with cap 2 triggers the cap break before page two, so the visit list is
`[a, c]` — not the first `min(k, |S|) = 2` elements `[a, b]` of the sorted
full union — hence the result is not independent of how the links are
distributed across pages. -/
theorem claim_C2_counterexample :
    collect_links [["a", "c"], ["b"]] (some 2) = ["a", "c"] ∧
      (pySort (unionAll [["a", "c"], ["b"]])).take 2 = ["a", "b"] ∧
      (["a", "c"] : List String) ≠ ["a", "b"] :=
  ⟨by decide, by decide, by decide⟩

/-- Claim C2 (amended). Link discovery with cap `k ≥ 1` yields a visit list that
is sorted, duplicate-free, drawn from the union `S` of the discovered link
sets, of length `min(k, |S|)`, and insensitive to the order and multiplicity
of links within each page; it equals the first `min(k, |S|)` elements of
sorted `S` whenever no early cap break occurs (in particular when the cap is
only reached on the last page or never), but an early break can make it a
sorted subset of `S` that is not a prefix of sorted `S`. -/
theorem claim_C2_link_discovery (pages : List (List String)) (k : Nat)
    (hk : 1 ≤ k) :
    List.Sorted strLe (collect_links pages (some k)) ∧
    (collect_links pages (some k)).Nodup ∧
    (∀ x ∈ collect_links pages (some k), x ∈ unionAll pages) ∧
    (collect_links pages (some k)).length = min k (unionAll pages).length ∧
    (collect_links pages (some k) = (pySort (unionAll pages)).take k ∨
      (collect_links pages (some k)).length = k) ∧
    (∀ pages2, List.Forall₂ (fun p q => ∀ x, x ∈ p ↔ x ∈ q) pages pages2 →
      collect_links pages2 (some k) = collect_links pages (some k)) := by
  have hk0 : k ≠ 0 := by omega
  have hcoll : ∀ ps : List (List String), collect_links ps (some k)
      = (pySort (accumLinks (some k) ps [])).take k := by
    intro ps
    show (if k ≠ 0 then (pySort (accumLinks (some k) ps [])).take k
          else pySort (accumLinks (some k) ps []))
        = (pySort (accumLinks (some k) ps [])).take k
    rw [if_pos hk0]
  have hnodupA : (accumLinks (some k) pages []).Nodup :=
    accumLinks_nodup _ _ _ List.nodup_nil
  have hsortnd : (pySort (accumLinks (some k) pages [])).Nodup :=
    ((pySort_perm _).nodup_iff).2 hnodupA
  have hsubA : ∀ y ∈ accumLinks (some k) pages [], y ∈ unionAll pages :=
    accumLinks_sub _ _ _
  have hlenA : (accumLinks (some k) pages []).length ≤ (unionAll pages).length :=
    (List.Nodup.subperm hnodupA hsubA).length_le
  have hlen : (collect_links pages (some k)).length
      = min k (unionAll pages).length := by
    rw [hcoll, List.length_take, (pySort_perm _).length_eq]
    rcases accumLinks_cases k pages [] with hall | ⟨_, hge⟩
    · rw [hall]; rfl
    · omega
  refine ⟨?_, ?_, ?_, hlen, ?_, ?_⟩
  · rw [hcoll]
    exact List.Pairwise.sublist (List.take_sublist _ _) (pySort_sorted _)
  · rw [hcoll]
    exact List.Nodup.sublist (List.take_sublist _ _) hsortnd
  · intro x hx
    rw [hcoll] at hx
    have hx2 : x ∈ pySort (accumLinks (some k) pages []) :=
      (List.take_sublist _ _).subset hx
    exact hsubA x ((pySort_perm _).mem_iff.1 hx2)
  · rcases accumLinks_cases k pages [] with hall | ⟨_, hge⟩
    · left
      rw [hcoll, hall]
      rfl
    · right
      rw [hlen]
      omega
  · intro pages2 hf
    have hperm := accumLinks_perm (some k) pages pages2 hf [] []
      (List.Perm.refl []) List.nodup_nil
    rw [hcoll, hcoll, pySort_congr hperm]

/-- Witness for C2 at the spec's scenario: `{A}` then `{C, B}` over two
pages with cap 2 yields `[A, B]`. -/
theorem claim_C2_witness :
    List.Sorted strLe (collect_links [["A"], ["C", "B"]] (some 2)) ∧
      (collect_links [["A"], ["C", "B"]] (some 2)).length
        = min 2 (unionAll [["A"], ["C", "B"]]).length ∧
      collect_links [["A"], ["C", "B"]] (some 2) = ["A", "B"] :=
  ⟨(claim_C2_link_discovery [["A"], ["C", "B"]] 2 (by decide)).1,
   (claim_C2_link_discovery [["A"], ["C", "B"]] 2 (by decide)).2.2.2.1,
   by decide⟩

/-- The walk's accumulated set is exactly the page-list accumulation over the
pages it processed (ties the C7 world model to the C2 page-list model). -/
theorem crawlPages_acc_eq (world : String → Page) (cap : Option Nat) :
    ∀ (n : Nat) (cur : String) (acc : List String),
      (crawlPages world cap n cur acc).2 =
        accumLinks cap ((crawlPages world cap n cur acc).1.map
          (fun u => (world u).links)) acc
  | 0, cur, acc => rfl
  | n + 1, cur, acc => by
    unfold crawlPages
    by_cases hcap : capHit cap (setUnionL acc (world cur).links) = true
    · simp only [if_pos hcap]
      unfold accumLinks
      simp [accumLinks, hcap]
    · simp only [if_neg hcap]
      cases hnext : (world cur).next with
      | none => simp [accumLinks, hcap]
      | some nxt =>
        by_cases hloop : nxt = "" ∨ nxt = cur
        · simp [hloop, accumLinks, hcap]
        · simp only [if_neg hloop, List.map_cons]
          unfold accumLinks
          rw [if_neg hcap]
          exact crawlPages_acc_eq world cap n nxt (setUnionL acc (world cur).links)

/-- Every walk processes at least one page when the budget is positive. -/
theorem crawlPages_trace_pos (world : String → Page) (cap : Option Nat)
    (n : Nat) (cur : String) (acc : List String) (hn : 1 ≤ n) :
    1 ≤ (crawlPages world cap n cur acc).1.length := by
  cases n with
  | zero => omega
  | succ m =>
    unfold crawlPages
    by_cases hcap : capHit cap (setUnionL acc (world cur).links) = true
    · simp [hcap]
    · simp only [if_neg hcap]
      cases (world cur).next with
      | none => simp
      | some nxt =>
        by_cases hloop : nxt = "" ∨ nxt = cur
        · simp [hloop]
        · simp [hloop]

/-- The walk never processes more pages than the budget. -/
theorem crawlPages_trace_le (world : String → Page) (cap : Option Nat) :
    ∀ (n : Nat) (cur : String) (acc : List String),
      (crawlPages world cap n cur acc).1.length ≤ n
  | 0, _, _ => Nat.le_refl 0
  | n + 1, cur, acc => by
    unfold crawlPages
    by_cases hcap : capHit cap (setUnionL acc (world cur).links) = true
    · simp [hcap]
    · simp only [if_neg hcap]
      cases (world cur).next with
      | none => simp
      | some nxt =>
        by_cases hloop : nxt = "" ∨ nxt = cur
        · simp [hloop]
        · simp only [if_neg hloop, List.length_cons]
          have := crawlPages_trace_le world cap n nxt (setUnionL acc (world cur).links)
          omega

/-- Claim C7. Pagination loop guard and termination: the walk processes at most
`maxPages` pages; with a positive budget it stops after the seed page
whenever the finder yields nothing or yields the seed itself (self-loop
guard: exactly one page is processed); and an extractor returning no links
on the seed page does not by itself stop the walk — with budget ≥ 2, an
unreached cap and a fresh next page, at least two pages are processed. -/
theorem claim_C7_pagination_guard (world : String → Page) (seed : String)
    (maxPages : Nat) (cap : Option Nat) :
    ((crawlPages world cap maxPages seed []).1.length ≤ maxPages) ∧
    (1 ≤ maxPages → ((world seed).next = none ∨ (world seed).next = some seed) →
      (crawlPages world cap maxPages seed []).1 = [seed]) ∧
    (2 ≤ maxPages → (world seed).links = [] →
      ∀ nxt, (world seed).next = some nxt → nxt ≠ "" → nxt ≠ seed →
      capHit cap [] = false →
      2 ≤ (crawlPages world cap maxPages seed []).1.length) := by
  refine ⟨crawlPages_trace_le world cap maxPages seed [], ?_, ?_⟩
  · intro hmax hnext
    cases maxPages with
    | zero => omega
    | succ m =>
      unfold crawlPages
      by_cases hcap : capHit cap (setUnionL [] (world seed).links) = true
      · simp [hcap]
      · simp only [if_neg hcap]
        rcases hnext with hnext | hnext <;> rw [hnext]
        all_goals simp
  · intro hmax hlinks nxt hnext hne hnself hcap0
    cases maxPages with
    | zero => omega
    | succ m =>
      unfold crawlPages
      have hacc : setUnionL [] (world seed).links = [] := by
        rw [hlinks]; rfl
      simp only [hacc, hcap0, hnext, Bool.false_eq_true, if_false]
      rw [if_neg (by
        rintro (h | h)
        · exact hne h
        · exact hnself h)]
      show 2 ≤ (seed :: (crawlPages world cap m nxt []).1).length
      rw [List.length_cons]
      have := crawlPages_trace_pos world cap m nxt [] (by omega)
      omega

/-- Witness for C7: a self-referential finder stops after one page, and an
empty extraction with a fresh next page continues to a second page. -/
theorem claim_C7_witness :
    (crawlPages (fun u => if u = "s" then ⟨["x"], some "s"⟩ else ⟨[], none⟩)
        none 5 "s" []).1 = ["s"] ∧
    2 ≤ (crawlPages (fun u => if u = "s" then ⟨[], some "t"⟩ else ⟨["y"], none⟩)
        none 5 "s" []).1.length :=
  ⟨(claim_C7_pagination_guard _ "s" 5 none).2.1 (by decide) (Or.inr (by decide)),
   (claim_C7_pagination_guard _ "s" 5 none).2.2 (by decide) (by decide) "t"
     (by decide) (by decide) (by decide) rfl⟩

/-- Claim C6. Whole-run strategy fallback: when the browser pipeline raises, the
run's result is the plain-HTTP pipeline recomputed from scratch — discovery
and visiting redone over the HTTP-fetched pages, not resumed per-article —
and that completed fallback is a non-error summary carrying the seed URL,
the count of articles collected, and the developer attribution; the result
is independent of which exception the browser strategy raised, and a
successful browser pipeline is returned as-is (no fallback). -/
theorem claim_C6_whole_run_fallback (world : String → Page) (ok : String → Bool)
    (seed : String) (maxPages : Nat) (cap : Option Nat) (name note e : String)
    (s : Summary) :
    run (Except.error e) world ok seed maxPages cap name note
      = { seed_url := seed
        , articles_collected :=
            (collect_links_world world seed maxPages cap).countP ok
        , developer_signature := developer_signature name note } ∧
    (∀ e2 : String, run (Except.error e2) world ok seed maxPages cap name note
      = run (Except.error e) world ok seed maxPages cap name note) ∧
    run (Except.ok s) world ok seed maxPages cap name note = s :=
  ⟨rfl, fun _ => rfl, rfl⟩

theorem storeGet_window (p val : String) (pre post : List Write)
    (hpost : p ∉ post.map Prod.fst) :
    storeGet (pre ++ [(p, val)] ++ post) p = some val := by
  rw [storeGet_append_none _ _ _ (storeGet_eq_none post p (by
    intro e he hk
    exact hpost (hk ▸ List.mem_map_of_mem Prod.fst he)))]
  apply storeGet_append_some
  simp [storeGet]

theorem roundTrips_scalar (v : PVal)
    (hw : ∀ p : String, writeObj p v = [(p, renderScalar v)])
    (hsh : shapeOf v = Shape.scalar)
    (hst : stringify v = PVal.str (renderScalar v)) : RoundTrips v := by
  intro p pre post hnd hpost
  rw [hw, hsh, hst] at *
  have hp : p ∉ post.map Prod.fst := hpost p (by simp)
  show readObj (storeGet (pre ++ [(p, renderScalar v)] ++ post)) p Shape.scalar
      = some (PVal.str (renderScalar v))
  unfold readObj
  rw [storeGet_window p (renderScalar v) pre post hp]

theorem elems_roundTrip (xs : List PVal) (hall : ∀ w ∈ xs, RoundTrips w) :
    ∀ (p : String) (i : Nat) (pre post : List Write),
      ((writeElems p i xs).map Prod.fst).Nodup →
      (∀ k ∈ (writeElems p i xs).map Prod.fst, k ∉ post.map Prod.fst) →
      readElems (storeGet (pre ++ writeElems p i xs ++ post)) p i (shapesOf xs)
        = some (stringifyElems xs) := by
  induction xs with
  | nil => intro p i pre post _ _; rfl
  | cons v rest ih =>
    intro p i pre post hnd hpost
    have hallrest : ∀ w ∈ rest, RoundTrips w :=
      fun w hw => hall w (List.mem_cons_of_mem _ hw)
    simp only [writeElems, List.map_append] at hnd hpost
    rcases List.nodup_append.1 hnd with ⟨hnd1, hnd2, hdisj⟩
    have hpost1 : ∀ k ∈ (writeObj (p ++ ":" ++ toString i) v).map Prod.fst,
        k ∉ (writeElems p (i + 1) rest ++ post).map Prod.fst := by
      intro k hk
      rw [List.map_append, List.mem_append]
      rintro (hk2 | hk2)
      · exact hdisj hk hk2
      · exact hpost k (List.mem_append_left _ hk) hk2
    have hpost2 : ∀ k ∈ (writeElems p (i + 1) rest).map Prod.fst,
        k ∉ post.map Prod.fst :=
      fun k hk => hpost k (List.mem_append_right _ hk)
    have ha := hall v (List.mem_cons_self _ _) (p ++ ":" ++ toString i) pre
      (writeElems p (i + 1) rest ++ post) hnd1 hpost1
    have hb := ih hallrest p (i + 1) (pre ++ writeObj (p ++ ":" ++ toString i) v)
      post hnd2 hpost2
    have heqa : pre ++ writeObj (p ++ ":" ++ toString i) v ++
        (writeElems p (i + 1) rest ++ post)
        = pre ++ writeElems p i (v :: rest) ++ post := by
      simp [writeElems, List.append_assoc]
    have heqb : pre ++ writeObj (p ++ ":" ++ toString i) v ++
        writeElems p (i + 1) rest ++ post
        = pre ++ writeElems p i (v :: rest) ++ post := by
      simp [writeElems, List.append_assoc]
    rw [heqa] at ha
    rw [heqb] at hb
    show (match readObj (storeGet (pre ++ writeElems p i (v :: rest) ++ post))
            (p ++ ":" ++ toString i) (shapeOf v),
          readElems (storeGet (pre ++ writeElems p i (v :: rest) ++ post)) p
            (i + 1) (shapesOf rest) with
      | some v2, some vs => some (v2 :: vs)
      | _, _ => none) = some (stringify v :: stringifyElems rest)
    rw [ha, hb]

theorem fields_roundTrip (fs : List (String × PVal))
    (hall : ∀ e ∈ fs, RoundTrips e.2) :
    ∀ (p : String) (pre post : List Write),
      ((writeFields p fs).map Prod.fst).Nodup →
      (∀ k ∈ (writeFields p fs).map Prod.fst, k ∉ post.map Prod.fst) →
      readFields (storeGet (pre ++ writeFields p fs ++ post)) p (shapeFields fs)
        = some (stringifyFields fs) := by
  induction fs with
  | nil => intro p pre post _ _; rfl
  | cons e rest ih =>
    rcases e with ⟨key, v⟩
    intro p pre post hnd hpost
    have hallrest : ∀ e ∈ rest, RoundTrips e.2 :=
      fun e he => hall e (List.mem_cons_of_mem _ he)
    simp only [writeFields, List.map_append] at hnd hpost
    rcases List.nodup_append.1 hnd with ⟨hnd1, hnd2, hdisj⟩
    have hpost1 : ∀ k ∈ (writeObj (p ++ ":" ++ key) v).map Prod.fst,
        k ∉ (writeFields p rest ++ post).map Prod.fst := by
      intro k hk
      rw [List.map_append, List.mem_append]
      rintro (hk2 | hk2)
      · exact hdisj hk hk2
      · exact hpost k (List.mem_append_left _ hk) hk2
    have hpost2 : ∀ k ∈ (writeFields p rest).map Prod.fst,
        k ∉ post.map Prod.fst :=
      fun k hk => hpost k (List.mem_append_right _ hk)
    have ha := hall (key, v) (List.mem_cons_self _ _) (p ++ ":" ++ key) pre
      (writeFields p rest ++ post) hnd1 hpost1
    have hb := ih hallrest p (pre ++ writeObj (p ++ ":" ++ key) v) post hnd2 hpost2
    have heqa : pre ++ writeObj (p ++ ":" ++ key) v ++
        (writeFields p rest ++ post)
        = pre ++ writeFields p ((key, v) :: rest) ++ post := by
      simp [writeFields, List.append_assoc]
    have heqb : pre ++ writeObj (p ++ ":" ++ key) v ++ writeFields p rest ++ post
        = pre ++ writeFields p ((key, v) :: rest) ++ post := by
      simp [writeFields, List.append_assoc]
    rw [heqa] at ha
    rw [heqb] at hb
    show (match readObj (storeGet (pre ++ writeFields p ((key, v) :: rest) ++ post))
            (p ++ ":" ++ key) (shapeOf v),
          readFields (storeGet (pre ++ writeFields p ((key, v) :: rest) ++ post)) p
            (shapeFields rest) with
      | some v2, some vs => some ((key, v2) :: vs)
      | _, _ => none) = some ((key, stringify v) :: stringifyFields rest)
    rw [ha, hb]

theorem roundTrips_list (xs : List PVal) (hall : ∀ w ∈ xs, RoundTrips w) :
    RoundTrips (PVal.list xs) := by
  intro p pre post hnd hpost
  simp only [writeObj, List.map_cons] at hnd hpost
  have hnd2 : ((writeElems p 0 xs).map Prod.fst).Nodup := (List.nodup_cons.1 hnd).2
  have hpost2 : ∀ k ∈ (writeElems p 0 xs).map Prod.fst, k ∉ post.map Prod.fst :=
    fun k hk => hpost k (List.mem_cons_of_mem _ hk)
  have hb := elems_roundTrip xs hall p 0
    (pre ++ [(p ++ ":count", toString xs.length)]) post hnd2 hpost2
  have heq : pre ++ [(p ++ ":count", toString xs.length)] ++ writeElems p 0 xs
      ++ post = pre ++ writeObj p (PVal.list xs) ++ post := by
    simp [writeObj, List.append_assoc]
  rw [heq] at hb
  show (match readElems (storeGet (pre ++ writeObj p (PVal.list xs) ++ post)) p 0
          (shapesOf xs) with
    | some vs => some (PVal.list vs)
    | none => none) = some (PVal.list (stringifyElems xs))
  rw [hb]

theorem roundTrips_dict (fs : List (String × PVal))
    (hall : ∀ e ∈ fs, RoundTrips e.2) : RoundTrips (PVal.dict fs) := by
  intro p pre post hnd hpost
  have hb := fields_roundTrip fs hall p pre post hnd hpost
  show (match readFields (storeGet (pre ++ writeObj p (PVal.dict fs) ++ post)) p
          (shapeFields fs) with
    | some vs => some (PVal.dict vs)
    | none => none) = some (PVal.dict (stringifyFields fs))
  rw [show writeObj p (PVal.dict fs) = writeFields p fs from rfl] at *
  rw [hb]

/-- Every value round-trips (proved by strong induction on size). -/
theorem roundTrips_all (v : PVal) : RoundTrips v := by
  have main : ∀ (N : Nat) (v : PVal), sizeOf v ≤ N → RoundTrips v := by
    intro N
    induction N with
    | zero =>
      intro v hv
      cases v <;> simp at hv
    | succ N ih =>
      intro v hv
      cases v with
      | null => exact roundTrips_scalar _ (fun _ => rfl) rfl rfl
      | str s => exact roundTrips_scalar _ (fun _ => rfl) rfl rfl
      | int n => exact roundTrips_scalar _ (fun _ => rfl) rfl rfl
      | bool b => exact roundTrips_scalar _ (fun _ => rfl) rfl rfl
      | list xs =>
        refine roundTrips_list xs fun w hw => ih w ?_
        have h1 := List.sizeOf_lt_of_mem hw
        have h2 : sizeOf (PVal.list xs) = 1 + sizeOf xs := by simp
        omega
      | dict fs =>
        refine roundTrips_dict fs fun e he => ih e.2 ?_
        have h1 := List.sizeOf_lt_of_mem he
        have h2 : sizeOf (PVal.dict fs) = 1 + sizeOf fs := by simp
        have h3 : sizeOf e = 1 + sizeOf e.1 + sizeOf e.2 := by
          rcases e with ⟨a, b⟩
          simp
        omega
  exact main (sizeOf v) v (Nat.le_refl _)

/-- Claim C3 counterexample: for `{"a:b": "x", "a": {"b": "y"}}` both leaves
flatten to the same key `p:a:b`; the later write wins, the reader returns
`"y"` for the field `"a:b"` whose original value was `"x"`, and the claimed
universal round trip fails. -/
theorem claim_C3_counterexample :
    readObj (storeGet (writeObj "p"
        (PVal.dict [("a:b", PVal.str "x"), ("a", PVal.dict [("b", PVal.str "y")])])))
      "p" (shapeOf
        (PVal.dict [("a:b", PVal.str "x"), ("a", PVal.dict [("b", PVal.str "y")])]))
      = some (PVal.dict [("a:b", PVal.str "y"),
          ("a", PVal.dict [("b", PVal.str "y")])]) ∧
    stringify
        (PVal.dict [("a:b", PVal.str "x"), ("a", PVal.dict [("b", PVal.str "y")])])
      = PVal.dict [("a:b", PVal.str "x"), ("a", PVal.dict [("b", PVal.str "y")])] ∧
    readObj (storeGet (writeObj "p"
        (PVal.dict [("a:b", PVal.str "x"), ("a", PVal.dict [("b", PVal.str "y")])])))
      "p" (shapeOf
        (PVal.dict [("a:b", PVal.str "x"), ("a", PVal.dict [("b", PVal.str "y")])]))
      ≠ some (stringify
        (PVal.dict [("a:b", PVal.str "x"), ("a", PVal.dict [("b", PVal.str "y")])])) := by
  refine ⟨rfl, rfl, ?_⟩
  intro h
  rw [show stringify
      (PVal.dict [("a:b", PVal.str "x"), ("a", PVal.dict [("b", PVal.str "y")])])
      = PVal.dict [("a:b", PVal.str "x"), ("a", PVal.dict [("b", PVal.str "y")])]
    from rfl] at h
  rw [show readObj (storeGet (writeObj "p"
        (PVal.dict [("a:b", PVal.str "x"), ("a", PVal.dict [("b", PVal.str "y")])])))
      "p" (shapeOf
        (PVal.dict [("a:b", PVal.str "x"), ("a", PVal.dict [("b", PVal.str "y")])]))
      = some (PVal.dict [("a:b", PVal.str "y"),
          ("a", PVal.dict [("b", PVal.str "y")])]) from rfl] at h
  simp at h

/-- Claim C3 (amended). Flatten/reconstruct round trip: `storeProcessed` writes
dict fields under `base:key`, each list under `base:count` plus `base:i` per
element recursively, and scalars as direct leaves with `None` as `""`; a
reader who knows the expected shape reconstructs the original structure —
every scalar coming back as its stored string, in particular `None` as the
empty string — provided the record's flattened key paths are pairwise
distinct (as they are whenever no dict key contains the `:` delimiter; a
colliding key such as `"a:b"` next to `"a": {"b": ...}` breaks the round
trip). -/
theorem claim_C3_flatten_roundtrip (v : PVal) (base : String)
    (hnd : ((writeObj base v).map Prod.fst).Nodup) :
    readObj (storeGet (writeObj base v)) base (shapeOf v)
      = some (stringify v) := by
  have h := roundTrips_all v base [] [] hnd (by intro k _; simp)
  rw [List.nil_append, List.append_nil] at h
  exact h

/-- Witness for C3 at the spec's example `{"a": [1, {"b": "x"}], "c": None}`:
reading it back by shape yields `{"a": ["1", {"b": "x"}], "c": ""}`. -/
theorem claim_C3_witness :
    (((writeObj "base"
        (PVal.dict [("a", PVal.list [PVal.int 1, PVal.dict [("b", PVal.str "x")]]),
          ("c", PVal.null)])).map Prod.fst).Nodup) ∧
    readObj (storeGet (writeObj "base"
        (PVal.dict [("a", PVal.list [PVal.int 1, PVal.dict [("b", PVal.str "x")]]),
          ("c", PVal.null)])))
      "base" (shapeOf
        (PVal.dict [("a", PVal.list [PVal.int 1, PVal.dict [("b", PVal.str "x")]]),
          ("c", PVal.null)]))
      = some (PVal.dict
          [("a", PVal.list [PVal.str "1", PVal.dict [("b", PVal.str "x")]]),
           ("c", PVal.str "")]) :=
  ⟨by decide,
   (claim_C3_flatten_roundtrip
      (PVal.dict [("a", PVal.list [PVal.int 1, PVal.dict [("b", PVal.str "x")]]),
        ("c", PVal.null)]) "base" (by decide)).trans rfl⟩

end DarkPulse

